import Mathlib

/-
Shallow embedding of the edit-table compiler of the m3 repository
(src/rdf_edits_table.py, src/csv2update.py, src/csv_edits.py).

Strings are modelled as lists of characters.  Python str.strip is pyStrip,
the regexes of the source are translated into explicit character scanners
(the character classes are the ASCII parts of the Python classes; every
input considered here is ASCII).  The rdflib fallback resolver from_n3 is
external library code and is modelled as an abstract function into N3Res.
-/

namespace M3

def lc (s : String) : List Char := s.data

/-- Python whitespace characters (the ASCII ones of str.strip and regex ws). -/
def isPySpace (c : Char) : Bool :=
  c = ' ' || c = '\t' || c = '\n' || c = '\r' || c = '\x0b' || c = '\x0c'

/-- Regex word character, ASCII part. -/
def isWordChar (c : Char) : Bool :=
  ('A' ≤ c && c ≤ 'Z') || ('a' ≤ c && c ≤ 'z') || ('0' ≤ c && c ≤ '9') || c = '_'

/-- First character of the CURIE prefix part: a letter or an underscore. -/
def isPfxStart (c : Char) : Bool :=
  ('A' ≤ c && c ≤ 'Z') || ('a' ≤ c && c ≤ 'z') || c = '_'

/-- Characters allowed in the CURIE prefix part after the first one. -/
def isPfxChar (c : Char) : Bool := isWordChar c || c = '-'

/-- Characters allowed in the CURIE local name after the first one. -/
def isLocalChar (c : Char) : Bool := isWordChar c || c = '-' || c = '.'

/-- Python str.strip restricted to the left end. -/
def pyStripLeft (cs : List Char) : List Char := cs.dropWhile isPySpace

/-- Python str.strip: drop whitespace from both ends. -/
def pyStrip (cs : List Char) : List Char :=
  ((cs.dropWhile isPySpace).reverse.dropWhile isPySpace).reverse

/-- Python str.rstrip applied to the namespace separator, c1.rstrip of a colon. -/
def pyRstripColon (cs : List Char) : List Char :=
  (cs.reverse.dropWhile (fun c => c = ':')).reverse

/-- Python str.strip lifted to the builtin string type. -/
def pyStripS (s : String) : String := String.mk (pyStrip s.data)

/-- Python "s".split of a semicolon: list of the semicolon separated segments. -/
def splitOnSemi : List Char → List (List Char)
  | [] => [[]]
  | c :: cs =>
    if c = ';' then [] :: splitOnSemi cs
    else
      match splitOnSemi cs with
      | [] => [[c]]
      | h :: t => (c :: h) :: t

/-- Leftmost match of the pattern ws-run semicolon ws-run: the text before the
match (trailing whitespace of it removed) and the text after the match. -/
def findSemiMatch (cs : List Char) : Option (List Char × List Char) :=
  if cs.contains ';' then
    let before := cs.takeWhile (fun c => c ≠ ';')
    let rest := cs.dropWhile (fun c => c ≠ ';')
    some ((before.reverse.dropWhile isPySpace).reverse,
          (rest.drop 1).dropWhile isPySpace)
  else none

/-- Fuelled version of the semicolon normalisation re.sub of the source. -/
def normSemisF : Nat → List Char → List Char
  | 0, cs => cs
  | fuel + 1, cs =>
    match findSemiMatch cs with
    | none => cs
    | some (before, after) => before ++ ';' :: ' ' :: normSemisF fuel after

/-- The re.sub of rdf_edits_table.py line 245: collapse whitespace around each
semicolon into the canonical separator of a semicolon and one space. -/
def normSemis (cs : List Char) : List Char := normSemisF cs.length cs

/-- Regex step of both predicate-object parsers: split a part at its first
whitespace run into predicate and object, as the re.match of the source does;
none when the part has no whitespace run after a nonempty predicate. -/
def wsSplitPair (part : List Char) : Option (List Char × List Char) :=
  let pred0 := part.takeWhile (fun c => !isPySpace c)
  let rest0 := part.dropWhile (fun c => !isPySpace c)
  match rest0 with
  | [] => none
  | _ :: _ =>
    if pred0 = [] then none
    else
      let obj := pyStrip (rest0.dropWhile isPySpace)
      let pred := pyStrip pred0
      if pred ≠ [] ∧ obj ≠ [] then some (pred, obj) else none

end M3

namespace M3.UpdateStatementBuilder

/-- Loop body of UpdateStatementBuilder.parse_predicate_object_list
(rdf_edits_table.py lines 251-271): one semicolon separated part into an
optional predicate-object pair. -/
def parsePart (part : List Char) : Option (List Char × List Char) :=
  if part = [] then none
  else if part.head? = some '<' ∧ part.contains '>' then
    let a := part.takeWhile (fun c => c ≠ '>')
    let b := part.dropWhile (fun c => c ≠ '>')
    match b with
    | [] => none
    | _ :: tl =>
      let pred := pyStrip (a ++ ['>'])
      let obj := pyStrip tl
      if obj = [] then none
      else if pred ≠ [] ∧ obj ≠ [] then some (pred, obj) else none
  else wsSplitPair part

/-- UpdateStatementBuilder.parse_predicate_object_list of rdf_edits_table.py:
strip the field, strip a whole-field quote pair when the first and last
characters are the same quote character, normalise whitespace around
semicolons, split on semicolons and turn each part into a pair. -/
def parse_predicate_object_list (value : List Char) : List (List Char × List Char) :=
  if value = [] then []
  else
    let s0 := pyStrip value
    let s1 :=
      if (s0.head? = some '"' ∧ s0.getLast? = some '"') ∨
         (s0.head? = some (Char.ofNat 39) ∧ s0.getLast? = some (Char.ofNat 39)) then
        pyStrip ((s0.drop 1).dropLast)
      else s0
    let s2 := normSemis s1
    if s2 = [] then []
    else ((splitOnSemi s2).map pyStrip).filterMap parsePart

/-- UpdateStatementBuilder.build of rdf_edits_table.py lines 274-295, as the
list of emitted lines; the source joins them with a newline. -/
def buildLines (subject whereV deleteV insertV : List Char) : List (List Char) :=
  let w := pyStrip whereV
  let d := pyStrip deleteV
  let ins := pyStrip insertV
  (if d ≠ [] then [lc "DELETE \x7b " ++ d ++ lc " \x7d"] else []) ++
  (if ins ≠ [] then [lc "INSERT \x7b " ++ ins ++ lc " \x7d"] else []) ++
  [lc "WHERE  \x7b", lc "  VALUES ?s \x7b " ++ subject ++ lc " \x7d"] ++
  (if w ≠ [] then [lc "  " ++ w] else []) ++
  [lc "\x7d;"]

/-- UpdateStatementBuilder.build, the joined string of the source. -/
def build (subject whereV deleteV insertV : List Char) : List Char :=
  List.intercalate ['\n'] (buildLines subject whereV deleteV insertV)

end M3.UpdateStatementBuilder

namespace M3.Csv2Update

/-- Loop body of parse_predicate_object_list of csv2update.py lines 46-57:
this version has no bracketed-predicate branch. -/
def parsePart (part : List Char) : Option (List Char × List Char) :=
  if part = [] then none else M3.wsSplitPair part

/-- parse_predicate_object_list of csv2update.py lines 34-58: strip, split on
semicolons, split each part at its first whitespace run. -/
def parse_predicate_object_list (value : List Char) : List (List Char × List Char) :=
  if value = [] then []
  else
    let s := pyStrip value
    if s = [] then []
    else ((splitOnSemi s).map pyStrip).filterMap parsePart

/-- Namespace wrapping of csv2update.py lines 136-138: wrap the namespace in
angle brackets unless it is already wrapped. -/
def wrapUri (u : List Char) : List Char :=
  if u.head? = some '<' ∧ u.getLast? = some '>' then u else '<' :: u ++ ['>']

/-- Row emission of csv2update.py main, lines 118-160: the lines printed for
one data row, from the declared prefix pairs and the five cells of the row
(cell extraction strips each cell, line 120). -/
def emitRow (pfxs : List (List Char × List Char))
    (subject nodePath optFilter deleteV insertV : List Char) : List (List Char) :=
  let subj := pyStrip subject
  let np := pyStrip nodePath
  let poDelete := parse_predicate_object_list (pyStrip deleteV)
  let poInsert := parse_predicate_object_list (pyStrip insertV)
  let poFilter := parse_predicate_object_list (pyStrip optFilter)
  (pfxs.map (fun pu => lc "PREFIX " ++ pu.1 ++ [' '] ++ wrapUri pu.2)) ++
  (if poDelete ≠ [] then
    lc "DELETE \x7b" ::
      (poDelete.map (fun po => lc "  ?node " ++ po.1 ++ [' '] ++ po.2 ++ lc " .")) ++
      [lc "\x7d"]
   else []) ++
  (if poInsert ≠ [] then
    lc "INSERT \x7b" ::
      (poInsert.map (fun po => lc "  ?node " ++ po.1 ++ [' '] ++ po.2 ++ lc " .")) ++
      [lc "\x7d"]
   else []) ++
  [lc "WHERE \x7b", lc "  " ++ subj ++ [' '] ++ np ++ lc " ?node ."] ++
  (poFilter.map (fun po => lc "  ?node " ++ po.1 ++ [' '] ++ po.2 ++ lc " .")) ++
  [lc "\x7d"]

end M3.Csv2Update

namespace M3

/-- Result of the external rdflib from_n3 resolver on one token: it can raise,
return a URIRef with the given string form, or return any other node. -/
inductive N3Res : Type
  | raises : N3Res
  | other : N3Res
  | uriRef : List Char → N3Res

/-- Lookup in the prefix_map dict of RDFEditsTable; the dict is built from the
declaration list in order, so a later duplicate key overwrites an earlier one. -/
def lookupPM (pm : List (List Char × List Char)) (k : List Char) : Option (List Char) :=
  (pm.reverse.find? (fun kv => kv.1 = k)).map (fun kv => kv.2)

end M3

namespace M3.RDFEditsTable

open M3

/-- One attempted match of the CURIE regex of expand_all_curies at the current
position: prev is the character before the position (none at the start of the
text).  On success, the prefix part, the local part and the text after the
match.  The word boundary requires prev to be a non-word character and the
lookbehind requires it not to be an opening angle bracket; the local part is
the maximal run of local characters with non-word characters dropped from its
end, as the trailing word boundary of the regex demands. -/
def matchCurieAt (prev : Option Char) (cs : List Char) :
    Option (List Char × List Char × List Char) :=
  let okBefore :=
    match prev with
    | none => true
    | some p => !isWordChar p && p ≠ '<'
  match cs with
  | [] => none
  | c :: _ =>
    if okBefore && isPfxStart c then
      match cs.dropWhile isPfxChar with
      | ':' :: d :: r3 =>
        if isWordChar d then
          let run := (d :: r3).takeWhile isLocalChar
          let afterRun := (d :: r3).dropWhile isLocalChar
          let loc := (run.reverse.dropWhile (fun x => !isWordChar x)).reverse
          let trimmed := (run.reverse.takeWhile (fun x => !isWordChar x)).reverse
          some (cs.takeWhile isPfxChar, loc, trimmed ++ afterRun)
        else none
      | _ => none
    else none

/-- The repl callback of expand_all_curies (rdf_edits_table.py lines 173-186):
look the prefix up in the prefix map (an empty base falls through, the source
tests the base for truthiness), otherwise ask the from_n3 fallback; a raise or
a non-URIRef result leaves the token unchanged. -/
def replCurie (pm : List (List Char × List Char)) (fb : List Char → N3Res)
    (pr loc : List Char) : List Char :=
  let token := pr ++ ':' :: loc
  let fbPart :=
    match fb token with
    | N3Res.uriRef u => '<' :: u ++ ['>']
    | _ => token
  match lookupPM pm (pr ++ [':']) with
  | some base => if base = [] then fbPart else '<' :: (base ++ loc) ++ ['>']
  | none => fbPart

/-- Fuelled scanner of the curie_re.sub of expand_all_curies: at each position
either replace a regex match and continue after it, or copy one character.
The previous original character is carried for the word boundary and the
lookbehind, exactly as the regex engine sees it. -/
def expandSub (pm : List (List Char × List Char)) (fb : List Char → N3Res) :
    Nat → Option Char → List Char → List Char
  | 0, _, cs => cs
  | _ + 1, _, [] => []
  | fuel + 1, prev, c :: cs =>
    match matchCurieAt prev (c :: cs) with
    | some (pr, loc, rest) =>
      replCurie pm fb pr loc ++ expandSub pm fb fuel (some (loc.getLastD 'a')) rest
    | none => c :: expandSub pm fb fuel (some c) cs

/-- RDFEditsTable.expand_all_curies of rdf_edits_table.py lines 159-188. -/
def expand_all_curies (pm : List (List Char × List Char)) (fb : List Char → N3Res)
    (text : List Char) : List Char :=
  if text = [] then text
  else expandSub pm fb (text.length + 1) none text

/-- Full-string match of the CURIE regex used by _parse_uri_str and the repl
callback: the prefix part with its colon and the local part, or none. -/
def fullCurie (ss : List Char) : Option (List Char × List Char) :=
  match ss with
  | [] => none
  | c :: _ =>
    if isPfxStart c then
      let pr := ss.takeWhile isPfxChar
      match ss.dropWhile isPfxChar with
      | ':' :: l1 :: ltl =>
        if isWordChar l1 && ltl.all isLocalChar then some (pr, l1 :: ltl) else none
      | _ => none
    else none

/-- RDFEditsTable._parse_uri_str of rdf_edits_table.py lines 108-126.  The
final from_n3 call of the source is not guarded by a try, so a raise of the
resolver escapes; that is the error case of the result. -/
def parse_uri_str (pm : List (List Char × List Char)) (fb : List Char → N3Res)
    (s : List Char) : Except Unit (Option (List Char)) :=
  if s = [] then Except.ok none
  else
    let ss := pyStrip s
    if ss.head? = some '<' ∧ ss.getLast? = some '>' then Except.ok (some ss)
    else
      let tailPart :=
        if (lc "http://").isPrefixOf ss || (lc "https://").isPrefixOf ss then
          Except.ok (some ('<' :: ss ++ ['>']))
        else
          match fb ss with
          | N3Res.raises => Except.error ()
          | N3Res.other => Except.ok none
          | N3Res.uriRef u =>
            if u = [] then Except.ok none else Except.ok (some ('<' :: u ++ ['>']))
      match fullCurie ss with
      | some prloc =>
        match lookupPM pm (prloc.1 ++ [':']) with
        | some base =>
          if base = [] then tailPart
          else Except.ok (some ('<' :: (base ++ prloc.2) ++ ['>']))
        | none => tailPart
      | none => tailPart

/-- The structural failure modes of RDFEditsTable.__init__: the two ValueError
raises for an empty file and a missing header, the ValueError naming the
required columns absent from the header, and the uncaught IndexError of the
unguarded second-column access of a one-column row in the scan loop. -/
inductive M3.InitError : Type
  | emptyCsv : M3.InitError
  | noHeader : M3.InitError
  | missingColumns : List String → M3.InitError
  | indexError : M3.InitError
  deriving DecidableEq

/-- Parsed table state produced by a successful RDFEditsTable.__init__. -/
structure M3.TableData : Type where
  pfxs : List (String × String)
  header : List String
  rowsRaw : List (List String)
  deriving DecidableEq

namespace M3.RDFEditsTable

/-- Scan loop of RDFEditsTable.__init__ (rdf_edits_table.py lines 58-78):
find the header row and collect the prefix declarations before it.  A row
whose first cell trims to the header marker ends the scan; an empty row is
skipped; any other row reads its second cell unguarded, so a one-column row
is an uncaught IndexError. -/
def initScan : List (List String) →
    Except M3.InitError (List (String × String) × List String × List (List String))
  | [] => Except.error M3.InitError.noHeader
  | row :: rest =>
    let c1 := M3.pyStripS (row.headD "")
    if c1 = "subject" then Except.ok ([], row.map M3.pyStripS, rest)
    else if row.isEmpty then initScan rest
    else
      match row with
      | [] => initScan rest
      | [_] => Except.error M3.InitError.indexError
      | r0 :: r1 :: _ =>
        let c1b := M3.pyStripS r0
        let c2 := M3.pyStripS r1
        if c1b ≠ "" ∧ c2 ≠ "" ∧ c1b ≠ "prefixes" then
          (initScan rest).map (fun acc =>
            ((M3.pyStripS (String.mk (M3.pyRstripColon (M3.lc c1b))), c2) :: acc.1, acc.2))
        else initScan rest

/-- RDFEditsTable.__init__ of rdf_edits_table.py lines 42-102, from the rows
the csv reader produced: the prefix declarations, the header and the non-blank
data rows, or the structural error raised before any row is processed. -/
def tableInit (allRows : List (List String)) : Except M3.InitError M3.TableData :=
  if allRows.isEmpty then Except.error M3.InitError.emptyCsv
  else
    match initScan allRows with
    | Except.error e => Except.error e
    | Except.ok (pfxs, header, dataRows) =>
      let missing := ["subject", "where", "delete", "insert"].filter
        (fun c => !header.contains c)
      if missing ≠ [] then Except.error (M3.InitError.missingColumns missing)
      else Except.ok
        { pfxs := pfxs, header := header,
          rowsRaw := dataRows.filter
            (fun r => !(r.isEmpty || r.all (fun c => M3.pyStripS c = ""))) }

end M3.RDFEditsTable

instance M3.instDecEqExcept {ε α : Type} [DecidableEq ε] [DecidableEq α] :
    DecidableEq (Except ε α) := fun x y =>
  match x, y with
  | Except.error a, Except.error b =>
    if h : a = b then isTrue (by rw [h]) else isFalse (fun hh => h (by cases hh; rfl))
  | Except.ok a, Except.ok b =>
    if h : a = b then isTrue (by rw [h]) else isFalse (fun hh => h (by cases hh; rfl))
  | Except.error _, Except.ok _ => isFalse (fun hh => Except.noConfusion hh)
  | Except.ok _, Except.error _ => isFalse (fun hh => Except.noConfusion hh)

namespace M3

/-- Prefix map binding ex to the colon-carrying namespace urn:ex:. -/
def pmUrn : List (List Char × List Char) := [(lc "ex:", lc "urn:ex:")]

/-- Prefix map binding ex to http://example.org/. -/
def pmHttp : List (List Char × List Char) := [(lc "ex:", lc "http://example.org/")]

/-- Fallback resolver that never yields a URI reference. -/
def fbOther : List Char → N3Res := fun _ => N3Res.other

/-- Character of a plain term token: not whitespace, not a semicolon, not an
angle bracket and not a quote, so the token interacts with none of the
delimiter handling of the predicate-object parsers. -/
def plainChar (c : Char) : Bool :=
  !isPySpace c && c ≠ ';' && c ≠ '<' && c ≠ '>' && c ≠ '"' && c ≠ Char.ofNat 39

/-- Nonempty token of plain characters. -/
def plainTok (cs : List Char) : Bool := !cs.isEmpty && cs.all plainChar

/-- The line l starts with the text p. -/
def startsWith (p l : List Char) : Prop := ∃ r, l = p ++ r

/-- C1: fragment expansion is claimed idempotent for every fragment, but with
the declared namespace urn:ex: the expansion of the fragment ex:a is the
bracketed IRI of urn:ex:a, and expanding that output again rewrites the
CURIE-shaped interior ex:a once more, because only the position immediately
after an opening angle bracket is protected by the lookbehind. -/
theorem c1_expansion_not_idempotent :
    RDFEditsTable.expand_all_curies pmUrn fbOther
        (RDFEditsTable.expand_all_curies pmUrn fbOther (lc "ex:a")) ≠
      RDFEditsTable.expand_all_curies pmUrn fbOther (lc "ex:a") ∧
    RDFEditsTable.expand_all_curies pmUrn fbOther (lc "ex:a") = lc "<urn:ex:a>" ∧
    RDFEditsTable.expand_all_curies pmUrn fbOther (lc "<urn:ex:a>") =
      lc "<urn:<urn:ex:a>>" := by
  refine ⟨?_, ?_, ?_⟩ <;> decide

/-- C2: a quoted literal is claimed to pass through expansion unchanged, but
the CURIE matcher is not quote aware: in the fragment consisting of the
single-quoted literal holding ex:a, the CURIE inside the quotes is replaced,
so the literal is not preserved. -/
theorem c2_literal_rewritten :
    RDFEditsTable.expand_all_curies pmHttp fbOther (lc "'ex:a'") =
      lc "'<http://example.org/a>'" ∧
    RDFEditsTable.expand_all_curies pmHttp fbOther (lc "'ex:a'") ≠ lc "'ex:a'" := by
  refine ⟨?_, ?_⟩ <;> decide

/-- C3 counterexample: for the prefix declaration of ex and the triple-mode
row of the claim, the emitted update does not contain the line with the
expanded insert triple the claim demands; the compiler leaves CURIEs compact. -/
theorem c3_counterexample :
    lc "  ?node <http://example.org/q> 'v' ." ∉
      Csv2Update.emitRow [(lc "ex:", lc "http://example.org/")]
        (lc "ex:a") (lc "ex:p") [] [] (lc "ex:q 'v'") ∧
    lc "  <http://example.org/a> <http://example.org/p> ?node ." ∉
      Csv2Update.emitRow [(lc "ex:", lc "http://example.org/")]
        (lc "ex:a") (lc "ex:p") [] [] (lc "ex:q 'v'") := by
  refine ⟨?_, ?_⟩ <;> decide

/-- C3 amended: for that prefix declaration and row the compiler emits a
PREFIX line wrapping the namespace in angle brackets, then an INSERT block
whose triple keeps the CURIE ex:q compact, then a WHERE block whose triple
keeps ex:a and ex:p compact. -/
theorem c3_emitted_update :
    Csv2Update.emitRow [(lc "ex:", lc "http://example.org/")]
        (lc "ex:a") (lc "ex:p") [] [] (lc "ex:q 'v'") =
      [lc "PREFIX ex: <http://example.org/>",
       lc "INSERT \x7b",
       lc "  ?node ex:q 'v' .",
       lc "\x7d",
       lc "WHERE \x7b",
       lc "  ex:a ex:p ?node .",
       lc "\x7d"] := by
  decide

/-- C4: on the table whose single row has the single cell x, the scan loop of
the constructor reads the second cell of the row without a length guard, so
the run fails with an uncaught IndexError instead of the MalformedTable
failure the claim requires for a table without a header row. -/
theorem c4_index_error_on_one_column_row :
    RDFEditsTable.tableInit [["x"]] = Except.error InitError.indexError := by
  decide

/-- C6 counterexample: the field whose first and last characters are quotes of
two distinct literals is stripped anyway, so the parser does not return the
pairs with both literals intact. -/
theorem c6_counterexample :
    UpdateStatementBuilder.parse_predicate_object_list (lc "\"a\" p ; q \"b\"") ≠
      [(lc "\"a\"", lc "p"), (lc "q", lc "\"b\"")] := by
  decide

/-- C6 amended: the parser strips a leading and trailing quote pair whenever
the first and the last character of the stripped field are the same quote
character, even when the two quotes belong to two distinct literals, which it
then tokenizes broken; a field that is genuinely wrapped whole is stripped
correctly. -/
theorem c6_outer_quote_stripping :
    UpdateStatementBuilder.parse_predicate_object_list (lc "\"a\" p ; q \"b\"") =
      [(lc "a\"", lc "p"), (lc "q", lc "\"b")] ∧
    UpdateStatementBuilder.parse_predicate_object_list (lc "\"ex:p 'v'\"") =
      [(lc "ex:p", lc "'v'")] := by
  refine ⟨?_, ?_⟩ <;> decide

theorem takeWhile_append_all (p : Char → Bool) (xs ys : List Char)
    (h : ∀ c ∈ xs, p c = true) :
    (xs ++ ys).takeWhile p = xs ++ ys.takeWhile p := by
  induction xs with
  | nil => simp
  | cons a t ih =>
    simp [List.takeWhile_cons, h a (List.mem_cons_self a t),
      ih (fun c hc => h c (List.mem_cons_of_mem a hc))]

theorem dropWhile_append_all (p : Char → Bool) (xs ys : List Char)
    (h : ∀ c ∈ xs, p c = true) :
    (xs ++ ys).dropWhile p = ys.dropWhile p := by
  induction xs with
  | nil => simp
  | cons a t ih =>
    simp [List.dropWhile_cons, h a (List.mem_cons_self a t),
      ih (fun c hc => h c (List.mem_cons_of_mem a hc))]

theorem takeWhile_nil_of_head (p : Char → Bool) (cs : List Char)
    (h : ∀ a, cs.head? = some a → p a = false) : cs.takeWhile p = [] := by
  cases cs with
  | nil => rfl
  | cons a t => simp [List.takeWhile_cons, h a rfl]

theorem dropWhile_self_of_head (p : Char → Bool) (cs : List Char)
    (h : ∀ a, cs.head? = some a → p a = false) : cs.dropWhile p = cs := by
  cases cs with
  | nil => rfl
  | cons a t => simp [List.dropWhile_cons, h a rfl]

theorem stripRight_eq_self (xs : List Char)
    (h2 : ∀ a, xs.getLast? = some a → isPySpace a = false) :
    (xs.reverse.dropWhile isPySpace).reverse = xs := by
  rw [dropWhile_self_of_head _ _ (fun a ha => h2 a (by rwa [List.head?_reverse] at ha)),
    List.reverse_reverse]

theorem pyStrip_eq_self (cs : List Char)
    (h1 : ∀ a, cs.head? = some a → isPySpace a = false)
    (h2 : ∀ a, cs.getLast? = some a → isPySpace a = false) : pyStrip cs = cs := by
  unfold pyStrip
  rw [dropWhile_self_of_head _ _ h1]
  exact stripRight_eq_self cs h2

theorem splitOnSemi_cons_ne (a : Char) (xs l : List Char) (t : List (List Char))
    (ha : ¬ a = ';') (h : splitOnSemi xs = l :: t) :
    splitOnSemi (a :: xs) = (a :: l) :: t := by
  unfold splitOnSemi
  rw [if_neg ha, h]

theorem splitOnSemi_no_semi (xs : List Char) (h : ∀ c ∈ xs, ¬ c = ';') :
    splitOnSemi xs = [xs] := by
  induction xs with
  | nil => rfl
  | cons a t ih =>
    exact splitOnSemi_cons_ne a t t [] (h a (List.mem_cons_self a t))
      (ih (fun c hc => h c (List.mem_cons_of_mem a hc)))

theorem splitOnSemi_append_left (A ys l : List Char) (t : List (List Char))
    (hA : ∀ c ∈ A, ¬ c = ';') (h : splitOnSemi ys = l :: t) :
    splitOnSemi (A ++ ys) = (A ++ l) :: t := by
  induction A with
  | nil => simpa using h
  | cons a A2 ih =>
    rw [List.cons_append]
    rw [splitOnSemi_cons_ne a (A2 ++ ys) (A2 ++ l) t (hA a (List.mem_cons_self a A2))
      (ih (fun c hc => hA c (List.mem_cons_of_mem a hc)))]
    simp

theorem contains_semi_false (xs : List Char) (h : ∀ c ∈ xs, ¬ c = ';') :
    xs.contains ';' = false := by
  cases hc : xs.contains ';' with
  | false => rfl
  | true =>
    have hm : ';' ∈ xs := by simpa using hc
    exact absurd rfl (h ';' hm)

theorem findSemiMatch_none (cs : List Char) (h : ∀ c ∈ cs, ¬ c = ';') :
    findSemiMatch cs = none := by
  have hm : ';' ∉ cs := fun hmem => h ';' hmem rfl
  simp [findSemiMatch, contains_semi_false cs h, hm]

theorem normSemisF_no_semi (cs : List Char) (h : ∀ c ∈ cs, ¬ c = ';') :
    ∀ f, normSemisF f cs = cs := by
  intro f
  cases f with
  | zero => rfl
  | succ n => simp [normSemisF, findSemiMatch_none cs h]

/-- C9: a bracket-wrapped subject cell passes through subject resolution
unchanged, for every prefix map and every behaviour of the fallback resolver:
when the stripped cell starts with an opening and ends with a closing angle
bracket, the function returns the stripped cell itself, consulting neither the
registry nor the fallback and never raising, whatever the bracketed content. -/
theorem c9_bracketed_subject_passthrough
    (pm : List (List Char × List Char)) (fb : List Char → N3Res) (s : List Char)
    (h1 : (pyStrip s).head? = some '<') (h2 : (pyStrip s).getLast? = some '>') :
    RDFEditsTable.parse_uri_str pm fb s = Except.ok (some (pyStrip s)) := by
  have hs : ¬ s = [] := by
    intro h
    rw [h] at h1
    simp [pyStrip] at h1
  unfold RDFEditsTable.parse_uri_str
  rw [if_neg hs]
  dsimp only
  rw [if_pos ⟨h1, h2⟩]

theorem c9_witness :
    RDFEditsTable.parse_uri_str pmHttp (fun _ => N3Res.raises) (lc "<not a uri>") =
      Except.ok (some (pyStrip (lc "<not a uri>"))) :=
  c9_bracketed_subject_passthrough pmHttp (fun _ => N3Res.raises) (lc "<not a uri>")
    (by decide) (by decide)

theorem rev_split (q : Char → Bool) (xs : List Char) :
    xs = (xs.reverse.dropWhile q).reverse ++ (xs.reverse.takeWhile q).reverse := by
  conv_lhs =>
    rw [← List.reverse_reverse xs,
      ← List.takeWhile_append_dropWhile q xs.reverse,
      List.reverse_append]

theorem local_split (xs : List Char) :
    xs = ((xs.takeWhile isLocalChar).reverse.dropWhile (fun x => !isWordChar x)).reverse ++
      (((xs.takeWhile isLocalChar).reverse.takeWhile (fun x => !isWordChar x)).reverse ++
        xs.dropWhile isLocalChar) := by
  conv_lhs => rw [← List.takeWhile_append_dropWhile isLocalChar xs]
  conv_lhs => rw [rev_split (fun x => !isWordChar x) (xs.takeWhile isLocalChar)]
  rw [List.append_assoc]

theorem matchCurieAt_decomp (prev : Option Char) (cs pr loc rest : List Char)
    (h : RDFEditsTable.matchCurieAt prev cs = some (pr, loc, rest)) :
    cs = pr ++ ':' :: loc ++ rest := by
  unfold RDFEditsTable.matchCurieAt at h
  cases cs with
  | nil => simp at h
  | cons c cs0 =>
    dsimp only at h
    split at h
    case isFalse => exact absurd h (by simp)
    case isTrue hok =>
      split at h
      case h_2 => exact absurd h (by simp)
      case h_1 d r3 heq =>
        split at h
        case isFalse => exact absurd h (by simp)
        case isTrue hw =>
          obtain ⟨hpr, hloc, hrest⟩ :
              (c :: cs0).takeWhile isPfxChar = pr ∧
              (((d :: r3).takeWhile isLocalChar).reverse.dropWhile
                (fun x => !isWordChar x)).reverse = loc ∧
              (((d :: r3).takeWhile isLocalChar).reverse.takeWhile
                (fun x => !isWordChar x)).reverse ++
                (d :: r3).dropWhile isLocalChar = rest := by
            simpa using h
          subst hpr hloc hrest
          conv_lhs =>
            rw [← List.takeWhile_append_dropWhile isPfxChar (c :: cs0), heq]
          conv_lhs => rw [local_split (d :: r3)]
          simp

theorem replCurie_keep (pm : List (List Char × List Char)) (fb : List Char → N3Res)
    (pr loc : List Char) (hpm : lookupPM pm (pr ++ [':']) = none)
    (hfb : ∀ s, fb s = N3Res.raises ∨ fb s = N3Res.other) :
    RDFEditsTable.replCurie pm fb pr loc = pr ++ ':' :: loc := by
  unfold RDFEditsTable.replCurie
  rw [hpm]
  rcases hfb (pr ++ ':' :: loc) with hf | hf <;> simp [hf]

theorem expandSub_id (pm : List (List Char × List Char)) (fb : List Char → N3Res)
    (hpm : ∀ k, lookupPM pm k = none)
    (hfb : ∀ s, fb s = N3Res.raises ∨ fb s = N3Res.other) :
    ∀ fuel prev cs, RDFEditsTable.expandSub pm fb fuel prev cs = cs := by
  intro fuel
  induction fuel with
  | zero => intro prev cs; rfl
  | succ n ih =>
    intro prev cs
    cases cs with
    | nil => rfl
    | cons c cs0 =>
      unfold RDFEditsTable.expandSub
      cases hm : RDFEditsTable.matchCurieAt prev (c :: cs0) with
      | none =>
        dsimp only
        rw [ih]
      | some x =>
        obtain ⟨pr, loc, rest⟩ := x
        dsimp only
        rw [replCurie_keep pm fb pr loc (hpm _) hfb, ih]
        exact (matchCurieAt_decomp prev _ pr loc rest hm).symm

/-- C10: fragment expansion is total and silently passes unresolvable CURIEs
through: for every prefix map in which no key resolves and every fallback
resolver that raises or yields a non-URIRef node on every token, the expansion
of any text is that text itself, character for character; the raise of the
fallback is caught, never propagated. -/
theorem c10_unresolvable_passthrough (pm : List (List Char × List Char))
    (fb : List Char → N3Res) (t : List Char)
    (hpm : ∀ k, lookupPM pm k = none)
    (hfb : ∀ s, fb s = N3Res.raises ∨ fb s = N3Res.other) :
    RDFEditsTable.expand_all_curies pm fb t = t := by
  unfold RDFEditsTable.expand_all_curies
  by_cases ht : t = []
  · rw [if_pos ht]
  · rw [if_neg ht]
    exact expandSub_id pm fb hpm hfb _ none t

/-- C7: for every part that begins with an opening angle bracket and contains
a closing one, the parser takes the text up to and including the first closing
bracket as the predicate and the stripped remainder as the object, yielding no
pair when that remainder is empty; on the concrete field of the claim the full
parser yields exactly the single bracketed-predicate pair. -/
theorem c7_iri_predicate_split :
    (∀ mid post : List Char, '>' ∉ mid →
      UpdateStatementBuilder.parsePart ('<' :: mid ++ '>' :: post) =
        if pyStrip post = [] then none
        else some ('<' :: mid ++ ['>'], pyStrip post)) ∧
    UpdateStatementBuilder.parse_predicate_object_list (lc "<http://ex/p> 'value'") =
      [(lc "<http://ex/p>", lc "'value'")] := by
  constructor
  · intro mid post hmid
    have hne : ¬ ('<' :: mid ++ '>' :: post) = [] := by simp
    have hhead : ('<' :: mid ++ '>' :: post).head? = some '<' := by simp
    have hcont : ('<' :: mid ++ '>' :: post).contains '>' = true := by
      have hmem : '>' ∈ ('<' :: mid ++ '>' :: post) := by simp
      simp [hmem]
    have hall : ∀ c ∈ ('<' :: mid), (fun x => decide ¬ x = '>') c = true := by
      intro c hc
      rcases List.mem_cons.mp hc with hc | hc
      · subst hc; decide
      · simp
        intro hcontra
        exact hmid (hcontra ▸ hc)
    have ha : ('<' :: mid ++ '>' :: post).takeWhile (fun x => decide ¬ x = '>') =
        '<' :: mid := by
      rw [show ('<' :: mid ++ '>' :: post) = ('<' :: mid) ++ ('>' :: post) from rfl]
      rw [takeWhile_append_all _ _ _ hall]
      simp [List.takeWhile_cons]
    have hb : ('<' :: mid ++ '>' :: post).dropWhile (fun x => decide ¬ x = '>') =
        '>' :: post := by
      rw [show ('<' :: mid ++ '>' :: post) = ('<' :: mid) ++ ('>' :: post) from rfl]
      rw [dropWhile_append_all _ _ _ hall]
      simp [List.dropWhile_cons]
    have hpred : pyStrip ('<' :: mid ++ ['>']) = '<' :: mid ++ ['>'] := by
      apply pyStrip_eq_self
      · intro a hA
        have : a = '<' := by
          have := hA
          simp at this
          exact this.symm
        subst this; decide
      · intro a hA
        have h2 : ('<' :: mid ++ ['>']).getLast? = some '>' :=
          List.getLast?_concat ('<' :: mid)
        rw [h2] at hA
        have : a = '>' := by
          have := hA
          simp at this
          exact this.symm
        subst this; decide
    unfold UpdateStatementBuilder.parsePart
    rw [if_neg hne, if_pos ⟨hhead, hcont⟩]
    dsimp only
    rw [ha, hb]
    dsimp only
    rw [hpred]
    by_cases hobj : pyStrip post = []
    · simp [hobj]
    · simp [hobj]
  · decide

theorem c7_witness :
    UpdateStatementBuilder.parsePart ('<' :: lc "http://ex/p" ++ '>' :: lc " 'value'") =
      (if pyStrip (lc " 'value'") = [] then none
       else some ('<' :: lc "http://ex/p" ++ ['>'], pyStrip (lc " 'value'"))) :=
  c7_iri_predicate_split.1 (lc "http://ex/p") (lc " 'value'") (by decide)

theorem plainChar_spec (c : Char) (h : plainChar c = true) :
    isPySpace c = false ∧ ¬ c = ';' ∧ ¬ c = '<' ∧ ¬ c = '>' ∧ ¬ c = '"' ∧
      ¬ c = Char.ofNat 39 := by
  simpa [plainChar, and_assoc] using h

theorem plainTok_ne_nil (cs : List Char) (h : plainTok cs = true) : cs ≠ [] := by
  intro hc
  rw [hc] at h
  simp [plainTok] at h

theorem plainTok_mem (cs : List Char) (h : plainTok cs = true) :
    ∀ c ∈ cs, plainChar c = true := by
  have := (by simpa [plainTok] using h : cs.isEmpty = false ∧ cs.all plainChar = true)
  exact List.all_eq_true.mp this.2

theorem mem_of_getLast (l : List Char) (a : Char) (h : l.getLast? = some a) : a ∈ l := by
  rw [← List.head?_reverse] at h
  have hm : a ∈ l.reverse := by
    cases hr : l.reverse with
    | nil => rw [hr] at h; simp at h
    | cons x xt =>
      rw [hr] at h
      have : x = a := by simpa using h
      subst this
      exact List.mem_cons_self x xt
  exact List.mem_reverse.mp hm

theorem head?_append_left (xs ys : List Char) (h : xs ≠ []) :
    (xs ++ ys).head? = xs.head? := by
  cases xs with
  | nil => exact absurd rfl h
  | cons a t => rfl

theorem getLast?_append_right (xs ys : List Char) (h : ys ≠ []) :
    (xs ++ ys).getLast? = ys.getLast? := by
  rw [← List.head?_reverse, List.reverse_append,
    head?_append_left _ _ (by simpa using h), List.head?_reverse]

theorem getLast?_tok_pair (p o : List Char) (ho : o ≠ []) :
    (p ++ ' ' :: o).getLast? = o.getLast? := by
  rw [show p ++ ' ' :: o = (p ++ [' ']) ++ o from by simp]
  exact getLast?_append_right _ _ ho

theorem pyStrip_plain_pair (p o : List Char) (hp : plainTok p = true)
    (ho : plainTok o = true) : pyStrip (p ++ ' ' :: o) = p ++ ' ' :: o := by
  obtain ⟨q, p2, rfl⟩ : ∃ q p2, p = q :: p2 := by
    cases p with
    | nil => exact absurd rfl (plainTok_ne_nil _ hp)
    | cons q p2 => exact ⟨q, p2, rfl⟩
  apply pyStrip_eq_self
  · intro a hA
    have : q = a := by simpa using hA
    subst this
    exact (plainChar_spec q (plainTok_mem _ hp q (List.mem_cons_self q p2))).1
  · intro a hA
    rw [getLast?_tok_pair _ _ (plainTok_ne_nil _ ho)] at hA
    have hmem : a ∈ o := mem_of_getLast o a hA
    exact (plainChar_spec a (plainTok_mem _ ho a hmem)).1

theorem wsSplitPair_plain (p o : List Char) (hp : plainTok p = true)
    (ho : plainTok o = true) : wsSplitPair (p ++ ' ' :: o) = some (p, o) := by
  have hpm := plainTok_mem p hp
  have hom := plainTok_mem o ho
  have hstripo : pyStrip o = o := by
    obtain ⟨w, o2, rfl⟩ : ∃ w o2, o = w :: o2 := by
      cases o with
      | nil => exact absurd rfl (plainTok_ne_nil _ ho)
      | cons w o2 => exact ⟨w, o2, rfl⟩
    apply pyStrip_eq_self
    · intro a hA
      have : w = a := by simpa using hA
      subst this
      exact (plainChar_spec w (hom w (List.mem_cons_self w o2))).1
    · intro a hA
      exact (plainChar_spec a (hom a (mem_of_getLast _ a hA))).1
  have hstripp : pyStrip p = p := by
    obtain ⟨q, p2, rfl⟩ : ∃ q p2, p = q :: p2 := by
      cases p with
      | nil => exact absurd rfl (plainTok_ne_nil _ hp)
      | cons q p2 => exact ⟨q, p2, rfl⟩
    apply pyStrip_eq_self
    · intro a hA
      have : q = a := by simpa using hA
      subst this
      exact (plainChar_spec q (hpm q (List.mem_cons_self q p2))).1
    · intro a hA
      exact (plainChar_spec a (hpm a (mem_of_getLast _ a hA))).1
  have htake : (p ++ ' ' :: o).takeWhile (fun c => !isPySpace c) = p := by
    rw [takeWhile_append_all _ _ _
      (fun c hc => by simp [(plainChar_spec c (hpm c hc)).1])]
    simp [List.takeWhile_cons, isPySpace]
  have hdrop : (p ++ ' ' :: o).dropWhile (fun c => !isPySpace c) = ' ' :: o := by
    rw [dropWhile_append_all _ _ _
      (fun c hc => by simp [(plainChar_spec c (hpm c hc)).1])]
    simp [List.dropWhile_cons, isPySpace]
  have hdropo : (' ' :: o).dropWhile isPySpace = o := by
    rw [List.dropWhile_cons]
    have hsp : isPySpace ' ' = true := by decide
    rw [hsp]
    simp only [if_true]
    exact dropWhile_self_of_head _ _ (fun a ha => by
      cases o with
      | nil => simp at ha
      | cons w o2 =>
        have : w = a := by simpa using ha
        subst this
        exact (plainChar_spec w (hom w (List.mem_cons_self w o2))).1)
  unfold wsSplitPair
  rw [htake, hdrop]
  dsimp only
  rw [if_neg (plainTok_ne_nil _ hp), hdropo, hstripo, hstripp]
  rw [if_pos ⟨plainTok_ne_nil _ hp, plainTok_ne_nil _ ho⟩]

theorem parsePartB_plain (p o : List Char) (hp : plainTok p = true)
    (ho : plainTok o = true) :
    UpdateStatementBuilder.parsePart (p ++ ' ' :: o) = some (p, o) := by
  obtain ⟨q, p2, rfl⟩ : ∃ q p2, p = q :: p2 := by
    cases p with
    | nil => exact absurd rfl (plainTok_ne_nil _ hp)
    | cons q p2 => exact ⟨q, p2, rfl⟩
  have hq := plainChar_spec q (plainTok_mem _ hp q (List.mem_cons_self q p2))
  unfold UpdateStatementBuilder.parsePart
  rw [if_neg (by simp : ¬ (q :: p2 ++ ' ' :: o) = [])]
  rw [if_neg (by
    rintro ⟨h1, _⟩
    have : q = '<' := by simpa using h1
    exact hq.2.2.1 this)]
  exact wsSplitPair_plain _ _ hp ho

theorem parsePartC_plain (p o : List Char) (hp : plainTok p = true)
    (ho : plainTok o = true) :
    Csv2Update.parsePart (p ++ ' ' :: o) = some (p, o) := by
  unfold Csv2Update.parsePart
  rw [if_neg (by
    intro hc
    exact plainTok_ne_nil _ hp (List.append_eq_nil.mp hc).1)]
  exact wsSplitPair_plain _ _ hp ho

theorem normSemis_step (X A B : List Char) (hX : X ≠ [])
    (h : findSemiMatch X = some (A, B)) (hB : ∀ c ∈ B, ¬ c = ';') :
    normSemis X = A ++ ';' :: ' ' :: B := by
  unfold normSemis
  cases X with
  | nil => exact absurd rfl hX
  | cons x xt =>
    rw [show (x :: xt).length = xt.length + 1 from rfl]
    unfold normSemisF
    rw [h]
    dsimp only
    rw [normSemisF_no_semi B hB xt.length]

/-- C8: for every field of the textual shape of two predicate-object pairs
separated by a semicolon, built from plain tokens, both predicate-object
parsers return exactly the two pairs in their textual order. -/
theorem c8_pair_ordering (p1 o1 p2 o2 : List Char)
    (h1 : plainTok p1 = true) (h2 : plainTok o1 = true)
    (h3 : plainTok p2 = true) (h4 : plainTok o2 = true) :
    UpdateStatementBuilder.parse_predicate_object_list
        ((p1 ++ ' ' :: o1) ++ ';' :: ' ' :: (p2 ++ ' ' :: o2)) =
      [(p1, o1), (p2, o2)] ∧
    Csv2Update.parse_predicate_object_list
        ((p1 ++ ' ' :: o1) ++ ';' :: ' ' :: (p2 ++ ' ' :: o2)) =
      [(p1, o1), (p2, o2)] := by
  obtain ⟨q1, p1t, rfl⟩ : ∃ q1 p1t, p1 = q1 :: p1t := by
    cases p1 with
    | nil => exact absurd rfl (plainTok_ne_nil _ h1)
    | cons q t => exact ⟨q, t, rfl⟩
  obtain ⟨q2, p2t, rfl⟩ : ∃ q2 p2t, p2 = q2 :: p2t := by
    cases p2 with
    | nil => exact absurd rfl (plainTok_ne_nil _ h3)
    | cons q t => exact ⟨q, t, rfl⟩
  have hp1m := plainTok_mem _ h1
  have ho1m := plainTok_mem _ h2
  have hp2m := plainTok_mem _ h3
  have ho2m := plainTok_mem _ h4
  have hq1 := plainChar_spec q1 (hp1m q1 (List.mem_cons_self q1 p1t))
  have hq2 := plainChar_spec q2 (hp2m q2 (List.mem_cons_self q2 p2t))
  have hAne : ((q1 :: p1t) ++ ' ' :: o1) ≠ [] := by simp
  have hBne : ((q2 :: p2t) ++ ' ' :: o2) ≠ [] := by simp
  have hFne : ((q1 :: p1t) ++ ' ' :: o1) ++
      ';' :: ' ' :: ((q2 :: p2t) ++ ' ' :: o2) ≠ [] := by simp
  have hAnosemi : ∀ c ∈ (q1 :: p1t) ++ ' ' :: o1, ¬ c = ';' := by
    intro c hc
    rcases List.mem_append.mp hc with hc | hc
    · exact (plainChar_spec c (hp1m c hc)).2.1
    · rcases List.mem_cons.mp hc with hc | hc
      · subst hc; decide
      · exact (plainChar_spec c (ho1m c hc)).2.1
  have hBnosemi : ∀ c ∈ (q2 :: p2t) ++ ' ' :: o2, ¬ c = ';' := by
    intro c hc
    rcases List.mem_append.mp hc with hc | hc
    · exact (plainChar_spec c (hp2m c hc)).2.1
    · rcases List.mem_cons.mp hc with hc | hc
      · subst hc; decide
      · exact (plainChar_spec c (ho2m c hc)).2.1
  have hspB : ∀ c ∈ ' ' :: ((q2 :: p2t) ++ ' ' :: o2), ¬ c = ';' := by
    intro c hc
    rcases List.mem_cons.mp hc with hc | hc
    · subst hc; decide
    · exact hBnosemi c hc
  have hstripA : pyStrip ((q1 :: p1t) ++ ' ' :: o1) = (q1 :: p1t) ++ ' ' :: o1 :=
    pyStrip_plain_pair _ _ h1 h2
  have hstripB : pyStrip ((q2 :: p2t) ++ ' ' :: o2) = (q2 :: p2t) ++ ' ' :: o2 :=
    pyStrip_plain_pair _ _ h3 h4
  have hlastA : ∀ a, ((q1 :: p1t) ++ ' ' :: o1).getLast? = some a →
      isPySpace a = false := by
    intro a ha
    rw [getLast?_tok_pair _ _ (plainTok_ne_nil _ h2)] at ha
    exact (plainChar_spec a (ho1m a (mem_of_getLast _ a ha))).1
  have hlastB : ∀ a, ((q2 :: p2t) ++ ' ' :: o2).getLast? = some a →
      isPySpace a = false := by
    intro a ha
    rw [getLast?_tok_pair _ _ (plainTok_ne_nil _ h4)] at ha
    exact (plainChar_spec a (ho2m a (mem_of_getLast _ a ha))).1
  have hstripF : pyStrip (((q1 :: p1t) ++ ' ' :: o1) ++
      ';' :: ' ' :: ((q2 :: p2t) ++ ' ' :: o2)) =
      ((q1 :: p1t) ++ ' ' :: o1) ++ ';' :: ' ' :: ((q2 :: p2t) ++ ' ' :: o2) := by
    apply pyStrip_eq_self
    · intro a ha
      have : q1 = a := by simpa using ha
      subst this
      exact hq1.1
    · intro a ha
      rw [show ((q1 :: p1t) ++ ' ' :: o1) ++
          ';' :: ' ' :: ((q2 :: p2t) ++ ' ' :: o2) =
          (((q1 :: p1t) ++ ' ' :: o1) ++ [';', ' ']) ++
            ((q2 :: p2t) ++ ' ' :: o2) from by simp] at ha
      rw [getLast?_append_right _ _ hBne] at ha
      exact hlastB a ha
  have hfind : findSemiMatch (((q1 :: p1t) ++ ' ' :: o1) ++
      ';' :: ' ' :: ((q2 :: p2t) ++ ' ' :: o2)) =
      some ((q1 :: p1t) ++ ' ' :: o1, (q2 :: p2t) ++ ' ' :: o2) := by
    have hmem : ';' ∈ ((q1 :: p1t) ++ ' ' :: o1) ++
        ';' :: ' ' :: ((q2 :: p2t) ++ ' ' :: o2) := by simp
    have hcont : (((q1 :: p1t) ++ ' ' :: o1) ++
        ';' :: ' ' :: ((q2 :: p2t) ++ ' ' :: o2)).contains ';' = true := by
      simp
    unfold findSemiMatch
    rw [if_pos hcont]
    have htakeF : (((q1 :: p1t) ++ ' ' :: o1) ++
        ';' :: ' ' :: ((q2 :: p2t) ++ ' ' :: o2)).takeWhile
          (fun c => c ≠ ';') = (q1 :: p1t) ++ ' ' :: o1 := by
      rw [takeWhile_append_all _ _ _
        (fun c hc => by simp [hAnosemi c hc])]
      simp [List.takeWhile_cons]
    have hdropF : (((q1 :: p1t) ++ ' ' :: o1) ++
        ';' :: ' ' :: ((q2 :: p2t) ++ ' ' :: o2)).dropWhile
          (fun c => c ≠ ';') = ';' :: ' ' :: ((q2 :: p2t) ++ ' ' :: o2) := by
      rw [dropWhile_append_all _ _ _
        (fun c hc => by simp [hAnosemi c hc])]
      simp [List.dropWhile_cons]
    dsimp only
    rw [htakeF, hdropF]
    rw [stripRight_eq_self _ hlastA]
    have hdropsp : ((';' :: ' ' :: ((q2 :: p2t) ++ ' ' :: o2)).drop 1).dropWhile
        isPySpace = (q2 :: p2t) ++ ' ' :: o2 := by
      rw [show (';' :: ' ' :: ((q2 :: p2t) ++ ' ' :: o2)).drop 1 =
        ' ' :: ((q2 :: p2t) ++ ' ' :: o2) from rfl]
      rw [List.dropWhile_cons]
      rw [show isPySpace ' ' = true from by decide]
      simp only [if_true]
      exact dropWhile_self_of_head _ _ (fun a ha => by
        have : q2 = a := by simpa using ha
        subst this
        exact hq2.1)
    rw [hdropsp]
  have hnormF : normSemis (((q1 :: p1t) ++ ' ' :: o1) ++
      ';' :: ' ' :: ((q2 :: p2t) ++ ' ' :: o2)) =
      ((q1 :: p1t) ++ ' ' :: o1) ++ ';' :: ' ' :: ((q2 :: p2t) ++ ' ' :: o2) :=
    normSemis_step _ _ _ hFne hfind hBnosemi
  have hsB : splitOnSemi (' ' :: ((q2 :: p2t) ++ ' ' :: o2)) =
      [' ' :: ((q2 :: p2t) ++ ' ' :: o2)] := splitOnSemi_no_semi _ hspB
  have hsSemi : splitOnSemi (';' :: ' ' :: ((q2 :: p2t) ++ ' ' :: o2)) =
      [] :: [' ' :: ((q2 :: p2t) ++ ' ' :: o2)] := by
    unfold splitOnSemi
    rw [if_pos rfl, hsB]
  have hsplitF : splitOnSemi (((q1 :: p1t) ++ ' ' :: o1) ++
      ';' :: ' ' :: ((q2 :: p2t) ++ ' ' :: o2)) =
      [(q1 :: p1t) ++ ' ' :: o1, ' ' :: ((q2 :: p2t) ++ ' ' :: o2)] := by
    rw [splitOnSemi_append_left _ _ _ _ hAnosemi hsSemi]
    simp
  have hd1 : (' ' :: ((q2 :: p2t) ++ ' ' :: o2)).dropWhile isPySpace =
      (q2 :: p2t) ++ ' ' :: o2 := by
    rw [List.dropWhile_cons, show isPySpace ' ' = true from by decide]
    simp only [if_true]
    exact dropWhile_self_of_head _ _ (fun a ha => by
      have : q2 = a := by simpa using ha
      subst this
      exact hq2.1)
  have hstripSpB : pyStrip (' ' :: ((q2 :: p2t) ++ ' ' :: o2)) =
      (q2 :: p2t) ++ ' ' :: o2 := by
    have hrw : pyStrip (' ' :: ((q2 :: p2t) ++ ' ' :: o2)) =
        ((((q2 :: p2t) ++ ' ' :: o2)).reverse.dropWhile isPySpace).reverse := by
      unfold pyStrip
      rw [hd1]
    rw [hrw]
    exact stripRight_eq_self _ hlastB
  have hnoquote : ¬ (((((q1 :: p1t) ++ ' ' :: o1) ++
        ';' :: ' ' :: ((q2 :: p2t) ++ ' ' :: o2)).head? = some '"' ∧
      (((q1 :: p1t) ++ ' ' :: o1) ++
        ';' :: ' ' :: ((q2 :: p2t) ++ ' ' :: o2)).getLast? = some '"') ∨
      ((((q1 :: p1t) ++ ' ' :: o1) ++
        ';' :: ' ' :: ((q2 :: p2t) ++ ' ' :: o2)).head? = some (Char.ofNat 39) ∧
      (((q1 :: p1t) ++ ' ' :: o1) ++
        ';' :: ' ' :: ((q2 :: p2t) ++ ' ' :: o2)).getLast? =
          some (Char.ofNat 39))) := by
    rintro (⟨hx, _⟩ | ⟨hx, _⟩)
    · exact hq1.2.2.2.2.1 (by simpa using hx)
    · exact hq1.2.2.2.2.2 (by simpa using hx)
  constructor
  · unfold UpdateStatementBuilder.parse_predicate_object_list
    rw [if_neg hFne]
    dsimp only
    rw [hstripF, if_neg hnoquote, hnormF, if_neg hFne, hsplitF]
    simp only [List.map_cons, List.map_nil, hstripA, hstripSpB,
      List.filterMap_cons, parsePartB_plain _ _ h1 h2, parsePartB_plain _ _ h3 h4,
      List.filterMap_nil]
  · unfold Csv2Update.parse_predicate_object_list
    rw [if_neg hFne]
    dsimp only
    rw [hstripF, if_neg hFne, hsplitF]
    simp only [List.map_cons, List.map_nil, hstripA, hstripSpB,
      List.filterMap_cons, parsePartC_plain _ _ h1 h2, parsePartC_plain _ _ h3 h4,
      List.filterMap_nil]

theorem c8_witness :
    plainTok (lc "p1") = true ∧ plainTok (lc "o1") = true ∧
    plainTok (lc "p2") = true ∧ plainTok (lc "o2") = true ∧
    UpdateStatementBuilder.parse_predicate_object_list
        ((lc "p1" ++ ' ' :: lc "o1") ++ ';' :: ' ' :: (lc "p2" ++ ' ' :: lc "o2")) =
      [(lc "p1", lc "o1"), (lc "p2", lc "o2")] ∧
    Csv2Update.parse_predicate_object_list
        ((lc "p1" ++ ' ' :: lc "o1") ++ ';' :: ' ' :: (lc "p2" ++ ' ' :: lc "o2")) =
      [(lc "p1", lc "o1"), (lc "p2", lc "o2")] :=
  ⟨by decide, by decide, by decide, by decide,
    (c8_pair_ordering (lc "p1") (lc "o1") (lc "p2") (lc "o2")
      (by decide) (by decide) (by decide) (by decide)).1,
    (c8_pair_ordering (lc "p1") (lc "o1") (lc "p2") (lc "o2")
      (by decide) (by decide) (by decide) (by decide)).2⟩

theorem startsWith_of_append (p r : List Char) : startsWith p (p ++ r) := ⟨r, rfl⟩

theorem not_startsWith_of_head (p l : List Char) (a b : Char)
    (hp : p.head? = some a) (hl : l.head? = some b) (h : ¬ a = b) :
    ¬ startsWith p l := by
  rintro ⟨r, rfl⟩
  rw [head?_append_left _ _ (by
    intro hc
    rw [hc] at hp
    simp at hp), hp] at hl
  exact h (by simpa using hl)

theorem ne_of_head_ne (l1 l2 : List Char) (a b : Char)
    (h1 : l1.head? = some a) (h2 : l2.head? = some b) (h : ¬ a = b) :
    ¬ l1 = l2 := by
  intro hc
  rw [hc, h2] at h1
  exact h (Eq.symm (by simpa using h1))

/-- C5: the builder emits a DELETE line exactly when the stripped delete field
is nonempty and an INSERT line exactly when the stripped insert field is
nonempty, and always emits the WHERE block; likewise the triple-mode compiler
emits the DELETE block exactly when the delete field parses to a nonempty pair
list, the INSERT block exactly when the insert field does, and always the
WHERE block. -/
theorem c5_block_omission :
    (∀ subject whereV deleteV insertV : List Char,
      ((∃ l ∈ UpdateStatementBuilder.buildLines subject whereV deleteV insertV,
          startsWith (lc "DELETE") l) ↔ ¬ pyStrip deleteV = []) ∧
      ((∃ l ∈ UpdateStatementBuilder.buildLines subject whereV deleteV insertV,
          startsWith (lc "INSERT") l) ↔ ¬ pyStrip insertV = []) ∧
      lc "WHERE  \x7b" ∈
        UpdateStatementBuilder.buildLines subject whereV deleteV insertV) ∧
    (∀ (pfxs : List (List Char × List Char))
        (subject nodePath optFilter deleteV insertV : List Char),
      (lc "DELETE \x7b" ∈
          Csv2Update.emitRow pfxs subject nodePath optFilter deleteV insertV ↔
        ¬ Csv2Update.parse_predicate_object_list (pyStrip deleteV) = []) ∧
      (lc "INSERT \x7b" ∈
          Csv2Update.emitRow pfxs subject nodePath optFilter deleteV insertV ↔
        ¬ Csv2Update.parse_predicate_object_list (pyStrip insertV) = []) ∧
      lc "WHERE \x7b" ∈
        Csv2Update.emitRow pfxs subject nodePath optFilter deleteV insertV) := by
  have hDD : lc "DELETE \x7b " = lc "DELETE" ++ lc " \x7b " := by decide
  have hII : lc "INSERT \x7b " = lc "INSERT" ++ lc " \x7b " := by decide
  have yD : ∀ x : List Char, startsWith (lc "DELETE") (lc "DELETE \x7b " ++ x) :=
    fun x => ⟨lc " \x7b " ++ x, by rw [hDD, List.append_assoc]⟩
  have yI : ∀ x : List Char, startsWith (lc "INSERT") (lc "INSERT \x7b " ++ x) :=
    fun x => ⟨lc " \x7b " ++ x, by rw [hII, List.append_assoc]⟩
  have nDI : ∀ x : List Char, ¬ startsWith (lc "DELETE") (lc "INSERT \x7b " ++ x) :=
    fun x => not_startsWith_of_head _ _ 'D' 'I' rfl rfl (by decide)
  have nID : ∀ x : List Char, ¬ startsWith (lc "INSERT") (lc "DELETE \x7b " ++ x) :=
    fun x => not_startsWith_of_head _ _ 'I' 'D' rfl rfl (by decide)
  have nDW : ¬ startsWith (lc "DELETE") (lc "WHERE  \x7b") :=
    not_startsWith_of_head _ _ 'D' 'W' rfl rfl (by decide)
  have nIW : ¬ startsWith (lc "INSERT") (lc "WHERE  \x7b") :=
    not_startsWith_of_head _ _ 'I' 'W' rfl rfl (by decide)
  have nDV : ∀ x : List Char,
      ¬ startsWith (lc "DELETE") (lc "  VALUES ?s \x7b " ++ x) :=
    fun x => not_startsWith_of_head _ _ 'D' ' ' rfl rfl (by decide)
  have nIV : ∀ x : List Char,
      ¬ startsWith (lc "INSERT") (lc "  VALUES ?s \x7b " ++ x) :=
    fun x => not_startsWith_of_head _ _ 'I' ' ' rfl rfl (by decide)
  have nDsp : ∀ x : List Char, ¬ startsWith (lc "DELETE") (lc "  " ++ x) :=
    fun x => not_startsWith_of_head _ _ 'D' ' ' rfl rfl (by decide)
  have nIsp : ∀ x : List Char, ¬ startsWith (lc "INSERT") (lc "  " ++ x) :=
    fun x => not_startsWith_of_head _ _ 'I' ' ' rfl rfl (by decide)
  have nDc : ¬ startsWith (lc "DELETE") (lc "\x7d;") :=
    not_startsWith_of_head _ _ 'D' '\x7d' rfl rfl (by decide)
  have nIc : ¬ startsWith (lc "INSERT") (lc "\x7d;") :=
    not_startsWith_of_head _ _ 'I' '\x7d' rfl rfl (by decide)
  constructor
  · intro subject whereV deleteV insertV
    unfold UpdateStatementBuilder.buildLines
    dsimp only
    refine ⟨?_, ?_, ?_⟩
    · by_cases hd : pyStrip deleteV = [] <;>
        by_cases hi : pyStrip insertV = [] <;>
        by_cases hw : pyStrip whereV = [] <;>
        simp [hd, hi, hw, yD, nDI, nDW, nDV, nDsp, nDc]
    · by_cases hd : pyStrip deleteV = [] <;>
        by_cases hi : pyStrip insertV = [] <;>
        by_cases hw : pyStrip whereV = [] <;>
        simp [hd, hi, hw, yI, nID, nIW, nIV, nIsp, nIc]
    · by_cases hd : pyStrip deleteV = [] <;>
        by_cases hi : pyStrip insertV = [] <;>
        by_cases hw : pyStrip whereV = [] <;>
        simp [hd, hi, hw]
  · intro pfxs subject nodePath optFilter deleteV insertV
    have nPfxD : ∀ x y : List Char,
        ¬ lc "DELETE \x7b" = lc "PREFIX " ++ (x ++ ' ' :: Csv2Update.wrapUri y) :=
      fun x y => ne_of_head_ne _ _ 'D' 'P' rfl rfl (by decide)
    have nPfxD2 : ∀ x y : List Char,
        ¬ lc "PREFIX " ++ (x ++ ' ' :: Csv2Update.wrapUri y) = lc "DELETE \x7b" :=
      fun x y => ne_of_head_ne _ _ 'P' 'D' rfl rfl (by decide)
    have nPfxI : ∀ x y : List Char,
        ¬ lc "INSERT \x7b" = lc "PREFIX " ++ (x ++ ' ' :: Csv2Update.wrapUri y) :=
      fun x y => ne_of_head_ne _ _ 'I' 'P' rfl rfl (by decide)
    have nPfxI2 : ∀ x y : List Char,
        ¬ lc "PREFIX " ++ (x ++ ' ' :: Csv2Update.wrapUri y) = lc "INSERT \x7b" :=
      fun x y => ne_of_head_ne _ _ 'P' 'I' rfl rfl (by decide)
    have nPfxW : ∀ x y : List Char,
        ¬ lc "WHERE \x7b" = lc "PREFIX " ++ (x ++ ' ' :: Csv2Update.wrapUri y) :=
      fun x y => ne_of_head_ne _ _ 'W' 'P' rfl rfl (by decide)
    have nPfxW2 : ∀ x y : List Char,
        ¬ lc "PREFIX " ++ (x ++ ' ' :: Csv2Update.wrapUri y) = lc "WHERE \x7b" :=
      fun x y => ne_of_head_ne _ _ 'P' 'W' rfl rfl (by decide)
    have nBodyD : ∀ x y : List Char,
        ¬ lc "  ?node " ++ (x ++ ' ' :: (y ++ lc " .")) = lc "DELETE \x7b" :=
      fun x y => ne_of_head_ne _ _ ' ' 'D' rfl rfl (by decide)
    have nBodyD2 : ∀ x y : List Char,
        ¬ lc "DELETE \x7b" = lc "  ?node " ++ (x ++ ' ' :: (y ++ lc " .")) :=
      fun x y => ne_of_head_ne _ _ 'D' ' ' rfl rfl (by decide)
    have nBodyI : ∀ x y : List Char,
        ¬ lc "  ?node " ++ (x ++ ' ' :: (y ++ lc " .")) = lc "INSERT \x7b" :=
      fun x y => ne_of_head_ne _ _ ' ' 'I' rfl rfl (by decide)
    have nBodyI2 : ∀ x y : List Char,
        ¬ lc "INSERT \x7b" = lc "  ?node " ++ (x ++ ' ' :: (y ++ lc " .")) :=
      fun x y => ne_of_head_ne _ _ 'I' ' ' rfl rfl (by decide)
    have nBodyW : ∀ x y : List Char,
        ¬ lc "  ?node " ++ (x ++ ' ' :: (y ++ lc " .")) = lc "WHERE \x7b" :=
      fun x y => ne_of_head_ne _ _ ' ' 'W' rfl rfl (by decide)
    have nBodyW2 : ∀ x y : List Char,
        ¬ lc "WHERE \x7b" = lc "  ?node " ++ (x ++ ' ' :: (y ++ lc " .")) :=
      fun x y => ne_of_head_ne _ _ 'W' ' ' rfl rfl (by decide)
    have nSubjD : ∀ x y : List Char,
        ¬ lc "DELETE \x7b" = lc "  " ++ (x ++ ' ' :: (y ++ lc " ?node .")) :=
      fun x y => ne_of_head_ne _ _ 'D' ' ' rfl rfl (by decide)
    have nSubjD2 : ∀ x y : List Char,
        ¬ lc "  " ++ (x ++ ' ' :: (y ++ lc " ?node .")) = lc "DELETE \x7b" :=
      fun x y => ne_of_head_ne _ _ ' ' 'D' rfl rfl (by decide)
    have nSubjI : ∀ x y : List Char,
        ¬ lc "INSERT \x7b" = lc "  " ++ (x ++ ' ' :: (y ++ lc " ?node .")) :=
      fun x y => ne_of_head_ne _ _ 'I' ' ' rfl rfl (by decide)
    have nSubjI2 : ∀ x y : List Char,
        ¬ lc "  " ++ (x ++ ' ' :: (y ++ lc " ?node .")) = lc "INSERT \x7b" :=
      fun x y => ne_of_head_ne _ _ ' ' 'I' rfl rfl (by decide)
    have litDI : ¬ lc "DELETE \x7b" = lc "INSERT \x7b" := by decide
    have litID : ¬ lc "INSERT \x7b" = lc "DELETE \x7b" := by decide
    have litDW : ¬ lc "DELETE \x7b" = lc "WHERE \x7b" := by decide
    have litWD : ¬ lc "WHERE \x7b" = lc "DELETE \x7b" := by decide
    have litIW : ¬ lc "INSERT \x7b" = lc "WHERE \x7b" := by decide
    have litWI : ¬ lc "WHERE \x7b" = lc "INSERT \x7b" := by decide
    have litDc : ¬ lc "DELETE \x7b" = lc "\x7d" := by decide
    have litcD : ¬ lc "\x7d" = lc "DELETE \x7b" := by decide
    have litIc : ¬ lc "INSERT \x7b" = lc "\x7d" := by decide
    have litcI : ¬ lc "\x7d" = lc "INSERT \x7b" := by decide
    have litWc : ¬ lc "WHERE \x7b" = lc "\x7d" := by decide
    have litcW : ¬ lc "\x7d" = lc "WHERE \x7b" := by decide
    unfold Csv2Update.emitRow
    dsimp only
    refine ⟨?_, ?_, ?_⟩
    · by_cases hd : Csv2Update.parse_predicate_object_list (pyStrip deleteV) = [] <;>
        by_cases hi : Csv2Update.parse_predicate_object_list (pyStrip insertV) = [] <;>
        simp [hd, hi, nPfxD, nPfxD2, nBodyD, nBodyD2, nSubjD, nSubjD2,
          litDI, litID, litDW, litWD, litDc, litcD]
    · by_cases hd : Csv2Update.parse_predicate_object_list (pyStrip deleteV) = [] <;>
        by_cases hi : Csv2Update.parse_predicate_object_list (pyStrip insertV) = [] <;>
        simp [hd, hi, nPfxI, nPfxI2, nBodyI, nBodyI2, nSubjI, nSubjI2,
          litDI, litID, litIW, litWI, litIc, litcI]
    · by_cases hd : Csv2Update.parse_predicate_object_list (pyStrip deleteV) = [] <;>
        by_cases hi : Csv2Update.parse_predicate_object_list (pyStrip insertV) = [] <;>
        simp [hd, hi, nPfxW, nPfxW2, nBodyW, nBodyW2,
          litWD, litWI, litWc, litcW]

theorem c10_witness :
    RDFEditsTable.expand_all_curies [] fbOther (lc "foo:bar baz") = lc "foo:bar baz" :=
  c10_unresolvable_passthrough [] fbOther (lc "foo:bar baz")
    (fun _ => rfl) (fun _ => Or.inr rfl)

end M3

